import Mathlib

/-!
Shallow embedding of the `ci-dashboard` tool (src/main.rs).

The program fetches recent CI builds, converts wire records (`TryBuild`)
into `Build` values (dropping records whose branch is null), selects at
most one build per local branch (`find_builds`), and renders one line per
build (`print_builds`).

Modelling conventions:
* `build_num` is a Rust `i32`; it is embedded as `Int` and the only
  arithmetic performed on it — the negation `-build.build_num` used as a
  sort key — is modelled with explicit wrapping modulo `2^32`
  (release-mode Rust semantics), via `wrap32` and `neg32`.
* Rust's `sort_unstable_by_key` guarantees only that its result is a
  permutation of the input sorted (ascending) by the key; the relative
  order of equal-key elements is unspecified.  It is therefore embedded
  relationally as `IsUnstableSortByKey`, and `find_builds` as the relation
  `FindBuildsRel` over the two sort call sites.  The dedup fold, the
  local-branch filter, the renderer and the wire conversion are
  deterministic in the source and are embedded as executable functions.
* Terminal colouring (the `colored` crate) is embedded as the ANSI escape
  wrappers the crate emits when colouring is active.
* Repository access (`git2`) is external to the crate: `current_branch_name`
  resolution is passed to the renderer as the `current` argument, and the
  local-branch test `repo.find_branch(_, Local).is_ok()` is abstracted as a
  predicate `isLocal : String → Bool`.
-/

/-- Build outcome, from `enum Outcome` (src/main.rs:172-200). -/
inductive Outcome where
  | Retried
  | Canceled
  | InfrastructureFail
  | Timedout
  | NotRun
  | Running
  | Failed
  | Queued
  | Scheduled
  | NotRunning
  | NoTests
  | Fixed
  | Success
deriving DecidableEq

/-- A CI build after validation, from `struct Build` (src/main.rs:165-170). -/
structure Build where
  branch : String
  build_num : Int
  outcome : Option Outcome
deriving DecidableEq

/-- A wire record before validation, from `struct TryBuild`
(src/main.rs:145-150): the branch is optional on the wire. -/
structure TryBuild where
  branch : Option String
  build_num : Int
  outcome : Option Outcome
deriving DecidableEq

namespace TryBuild

/-- `TryBuild::into_build` (src/main.rs:152-163): `let branch = self.branch?;`
then build the validated record; `none` exactly when the branch is null. -/
def into_build (self : TryBuild) : Option Build :=
  match self.branch with
  | none => none
  | some branch => some ⟨branch, self.build_num, self.outcome⟩

end TryBuild

/-- The decode step of `main` (src/main.rs:42-45):
`builds.into_iter().filter_map(TryBuild::into_build).collect()`. -/
def decodeBuilds (builds : List TryBuild) : List Build :=
  builds.filterMap TryBuild.into_build

/-- Wrap an integer into the `i32` range `[-2^31, 2^31)`, i.e. reduction
modulo `2^32` into two's-complement range. -/
def wrap32 (x : Int) : Int :=
  (x + 2147483648) % 4294967296 - 2147483648

/-- Release-mode `i32` negation: `-x` computed with wrap-around.  This is
the arithmetic of the sort key `-build.build_num` at src/main.rs:72. -/
def neg32 (x : Int) : Int :=
  wrap32 (-x)

/-- The key of the first sort in `find_builds` (src/main.rs:72):
`|build| -build.build_num` on `i32`. -/
def negKey (build : Build) : Int :=
  neg32 build.build_num

/-- The key of the second sort in `find_builds` (src/main.rs:86):
`|build| build.build_num`. -/
def numKey (build : Build) : Int :=
  build.build_num

/-- Contract of Rust `sort_unstable_by_key` with key `key`: `out` is a
permutation of `input`, sorted ascending by the key.  The relative order
of equal-key elements is unspecified, so this is a relation, not a
function. -/
def IsUnstableSortByKey (key : Build → Int) (input out : List Build) : Prop :=
  List.Perm out input ∧ out.Pairwise (fun a b => key a ≤ key b)

/-- One step of the dedup fold in `find_builds` (src/main.rs:76-81):
push `build` onto `acc` unless `acc` already holds a build of the same
branch (`acc.iter().find(|b| b.branch == build.branch).is_none()`). -/
def dedupStep (acc : List Build) (build : Build) : List Build :=
  if (acc.find? (fun b => b.branch == build.branch)).isNone then
    acc ++ [build]
  else
    acc

/-- The dedup pass of `find_builds` (src/main.rs:74-81): a left fold of
`dedupStep` starting from the empty accumulator, so the first build seen
for each branch is kept. -/
def dedupFold (builds : List Build) : List Build :=
  builds.foldl dedupStep []

/-- The local-branch filter of `find_builds` (src/main.rs:83):
`filter(|build| repo.find_branch(&build.branch, Local).is_ok())`, with the
repository abstracted as the predicate `isLocal`. -/
def localFilter (isLocal : String → Bool) (builds : List Build) : List Build :=
  builds.filter (fun build => isLocal build.branch)

/-- `find_builds` (src/main.rs:71-89) as a relation between its input and
its result: some unstable descending sort (ascending in `negKey`) of the
input, then the dedup fold, then the local filter, then some unstable
ascending sort by `build_num`. -/
def FindBuildsRel (isLocal : String → Bool) (builds out : List Build) : Prop :=
  ∃ s1 : List Build,
    IsUnstableSortByKey negKey builds s1 ∧
    IsUnstableSortByKey numKey (localFilter isLocal (dedupFold s1)) out

/-- ANSI red, as emitted by the `colored` crate's `.red()`. -/
def ansiRed (s : String) : String := "\x1b[31m" ++ s ++ "\x1b[0m"

/-- ANSI green, as emitted by `.green()`. -/
def ansiGreen (s : String) : String := "\x1b[32m" ++ s ++ "\x1b[0m"

/-- ANSI blue, as emitted by `.blue()`. -/
def ansiBlue (s : String) : String := "\x1b[34m" ++ s ++ "\x1b[0m"

/-- ANSI magenta, as emitted by `.magenta()`. -/
def ansiMagenta (s : String) : String := "\x1b[35m" ++ s ++ "\x1b[0m"

namespace Outcome

/-- `Outcome::term_string` (src/main.rs:203-221). -/
def term_string : Outcome → String
  | Retried => "retried"
  | Canceled => "canceled"
  | InfrastructureFail => ansiRed "infrastructure fail"
  | Timedout => ansiRed "timeout"
  | NotRun => "not run"
  | Running => ansiBlue "running"
  | Failed => ansiRed "failed"
  | Queued => "queued"
  | Scheduled => ansiMagenta "scheduled"
  | NotRunning => "not running"
  | NoTests => "no tests"
  | Fixed => ansiGreen "ok"
  | Success => ansiGreen "ok"

/-- `Outcome::failed` (src/main.rs:223-228): true only for `Failed`. -/
def failed : Outcome → Bool
  | Failed => true
  | _ => false

end Outcome

/-- `pad` (src/main.rs:137-143): prepend a space `n` times. -/
def pad (s : String) : Nat → String
  | 0 => s
  | n + 1 => " " ++ pad s n

/-- The trailing build-number field of a rendered line
(src/main.rs:112-122): the decimal build number when the outcome is a
failure, otherwise the empty string (also when there is no outcome). -/
def buildNumField (build : Build) : String :=
  (build.outcome.map (fun outcome =>
    if outcome.failed then toString build.build_num else "")).getD ""

/-- One rendered line of `print_builds` (src/main.rs:103-133): the padded
branch (magenta when it is the current branch), the outcome label (or the
placeholder), and the trailing build-number field, space-separated. -/
def renderLine (current : String) (length : Nat) (build : Build) : String :=
  let branch :=
    if current == build.branch then
      ansiMagenta (pad build.branch (length - build.branch.length))
    else
      pad build.branch (length - build.branch.length)
  let outcome := (build.outcome.map Outcome.term_string).getD "no outcome (yet)"
  branch ++ " " ++ outcome ++ " " ++ buildNumField build

/-- One step of Rust `Iterator::max_by_key`: keep the element with the
larger key, preferring the later element on ties. -/
def maxByKeyStep (key : Build → Nat) (acc : Option Build) (x : Build) : Option Build :=
  match acc with
  | none => some x
  | some m => if key m ≤ key x then some x else some m

/-- Rust `Iterator::max_by_key` over a build list (src/main.rs:92-94):
`none` exactly on the empty list, otherwise a maximal-key element (the
last one among ties). -/
def max_by_key (key : Build → Nat) (builds : List Build) : Option Build :=
  builds.foldl (maxByKeyStep key) none

/-- `print_builds` (src/main.rs:91-135) up to its terminal effects: the
column width is the longest branch length, obtained through
`max_by_key(...).expect(...)`, whose panic on the empty list is embedded
as `none`.  The current-branch resolution (src/main.rs:99-101) is passed
in as `current`. -/
def print_builds (current : String) (builds : List Build) : Option (List String) :=
  match max_by_key (fun build => build.branch.length) builds with
  | none => none
  | some longest => some (builds.map (renderLine current longest.branch.length))

/-- The filesystem state relevant to repository discovery: whether the
current working directory is a version-control working tree. -/
structure Dir where
  isRepo : Bool
deriving DecidableEq

/-- The repository-acquisition step of `main` (src/main.rs:47):
`Repository::init(".")`.  Per the documented semantics of the `git2`
library call used there, `init` creates (initialises) a repository at the
path when none exists and succeeds whether or not one already exists; the
returned state always holds a repository. -/
def repositoryInit (d : Dir) : Except String Dir :=
  Except.ok { d with isRepo := true }

/-- Modelled from the spec: the repository acquisition the spec describes
(missing from src/, whose `main` calls `init` instead) — open the
repository rooted at the current working directory and fail with
`RepositoryError` when the directory is not a version-control working
tree, never creating one. -/
def repositoryOpenSpec (d : Dir) : Except String Dir :=
  if d.isRepo then Except.ok d else Except.error "RepositoryError"

/-!
Helper lemmas about the embedded operations.
-/

theorem dedupStep_pos (acc : List Build) (x : Build)
    (h : (acc.find? (fun b => b.branch == x.branch)).isNone = true) :
    dedupStep acc x = acc ++ [x] := by
  unfold dedupStep
  rw [if_pos h]

theorem dedupStep_neg (acc : List Build) (x : Build)
    (h : ¬ (acc.find? (fun b => b.branch == x.branch)).isNone = true) :
    dedupStep acc x = acc := by
  unfold dedupStep
  rw [if_neg h]

theorem no_clash_of_isNone (acc : List Build) (x : Build)
    (h : (acc.find? (fun b => b.branch == x.branch)).isNone = true) :
    ∀ a ∈ acc, ¬ a.branch = x.branch := by
  intro a ha hab
  exact (List.find?_eq_none.mp (Option.isNone_iff_eq_none.mp h) a ha) (by simpa using hab)

theorem clash_of_not_isNone (acc : List Build) (x : Build)
    (h : ¬ (acc.find? (fun b => b.branch == x.branch)).isNone = true) :
    ∃ a ∈ acc, a.branch = x.branch := by
  have hsome : (acc.find? (fun b => b.branch == x.branch)).isSome = true := by
    cases hf : acc.find? (fun b => b.branch == x.branch) with
    | none => exact absurd (by simp [hf]) h
    | some a => simp
  obtain ⟨a, ha⟩ := Option.isSome_iff_exists.mp hsome
  exact ⟨a, List.mem_of_find?_eq_some ha, by simpa using List.find?_some ha⟩

theorem dedupStep_subset (acc : List Build) (x : Build) : acc ⊆ dedupStep acc x := by
  by_cases h : (acc.find? (fun b => b.branch == x.branch)).isNone = true
  · rw [dedupStep_pos acc x h]
    exact List.subset_append_left acc [x]
  · rw [dedupStep_neg acc x h]
    exact List.Subset.refl acc

theorem foldl_dedupStep_shape (l : List Build) :
    ∀ acc : List Build, ∃ l2, l.foldl dedupStep acc = acc ++ l2 ∧ l2.Sublist l := by
  induction l with
  | nil => exact fun acc => ⟨[], by simp, List.Sublist.refl _⟩
  | cons x l ih =>
    intro acc
    rw [List.foldl_cons]
    by_cases h : (acc.find? (fun b => b.branch == x.branch)).isNone = true
    · obtain ⟨l2, hl2, hsub⟩ := ih (acc ++ [x])
      rw [dedupStep_pos acc x h]
      exact ⟨x :: l2, by simpa using hl2, List.Sublist.cons₂ x hsub⟩
    · obtain ⟨l2, hl2, hsub⟩ := ih acc
      rw [dedupStep_neg acc x h]
      exact ⟨l2, hl2, List.Sublist.cons x hsub⟩

theorem mem_foldl_dedupStep_of_mem (l : List Build) (acc : List Build) (a : Build)
    (ha : a ∈ acc) : a ∈ l.foldl dedupStep acc := by
  obtain ⟨l2, hl2, _⟩ := foldl_dedupStep_shape l acc
  rw [hl2]
  exact List.mem_append_left l2 ha

theorem mem_foldl_dedupStep (l : List Build) :
    ∀ acc b, b ∈ l.foldl dedupStep acc →
      b ∈ acc ∨ (b ∈ l ∧ ∀ a ∈ acc, ¬ a.branch = b.branch) := by
  induction l with
  | nil => exact fun acc b hb => Or.inl hb
  | cons x l ih =>
    intro acc b hb
    rw [List.foldl_cons] at hb
    rcases ih (dedupStep acc x) b hb with hmem | ⟨hbl, hne⟩
    · by_cases h : (acc.find? (fun c => c.branch == x.branch)).isNone = true
      · rw [dedupStep_pos acc x h] at hmem
        rcases List.mem_append.mp hmem with h1 | h2
        · exact Or.inl h1
        · have hbx : b = x := by simpa using h2
          subst hbx
          exact Or.inr ⟨List.mem_cons_self b l, no_clash_of_isNone acc b h⟩
      · rw [dedupStep_neg acc x h] at hmem
        exact Or.inl hmem
    · exact Or.inr ⟨List.mem_cons_of_mem x hbl,
        fun a ha => hne a (dedupStep_subset acc x ha)⟩

theorem branch_cover_foldl_dedupStep (l : List Build) :
    ∀ acc br, (∃ b ∈ l, b.branch = br) →
      ∃ c ∈ l.foldl dedupStep acc, c.branch = br := by
  induction l with
  | nil => rintro acc br ⟨b, hb, _⟩; cases hb
  | cons x l ih =>
    rintro acc br ⟨b, hb, hbr⟩
    rw [List.foldl_cons]
    rcases List.mem_cons.mp hb with rfl | hbl
    · by_cases hfind : (acc.find? (fun c => c.branch == b.branch)).isNone = true
      · refine ⟨b, mem_foldl_dedupStep_of_mem l _ b ?_, hbr⟩
        rw [dedupStep_pos acc b hfind]
        exact List.mem_append_right acc (List.mem_singleton_self b)
      · obtain ⟨a, hamem, hap⟩ := clash_of_not_isNone acc b hfind
        exact ⟨a, mem_foldl_dedupStep_of_mem l _ a (dedupStep_subset acc b hamem),
          hap.trans hbr⟩
    · exact ih (dedupStep acc x) br ⟨b, hbl, hbr⟩

theorem pairwise_foldl_dedupStep (l : List Build) :
    ∀ acc, acc.Pairwise (fun a b => ¬ a.branch = b.branch) →
      (l.foldl dedupStep acc).Pairwise (fun a b => ¬ a.branch = b.branch) := by
  induction l with
  | nil => exact fun acc h => h
  | cons x l ih =>
    intro acc h
    rw [List.foldl_cons]
    apply ih
    by_cases hfind : (acc.find? (fun c => c.branch == x.branch)).isNone = true
    · rw [dedupStep_pos acc x hfind, List.pairwise_append]
      refine ⟨h, List.pairwise_singleton _ x, ?_⟩
      intro a ha b hb
      have hbx : b = x := by simpa using hb
      subst hbx
      exact no_clash_of_isNone acc b hfind a ha
    · rw [dedupStep_neg acc x hfind]
      exact h

theorem min_key_foldl_dedupStep (key : Build → Int) (l : List Build) :
    ∀ acc, l.Pairwise (fun a b => key a ≤ key b) →
      (∀ a ∈ acc, ∀ c ∈ l, c.branch = a.branch → key a ≤ key c) →
      ∀ b ∈ l.foldl dedupStep acc, ∀ c ∈ l, c.branch = b.branch → key b ≤ key c := by
  induction l with
  | nil => intro acc _ _ b _ c hc; cases hc
  | cons x l ih =>
    intro acc hsort hdom b hb c hc hbc
    rw [List.foldl_cons] at hb
    have hsort' : l.Pairwise (fun a b => key a ≤ key b) := hsort.of_cons
    have hx : ∀ c ∈ l, key x ≤ key c := fun c hcl =>
      List.rel_of_pairwise_cons hsort hcl
    have hdom' : ∀ a ∈ dedupStep acc x, ∀ c ∈ l, c.branch = a.branch → key a ≤ key c := by
      intro a ha c hcl hca
      by_cases hfind : (acc.find? (fun d => d.branch == x.branch)).isNone = true
      · rw [dedupStep_pos acc x hfind] at ha
        rcases List.mem_append.mp ha with h1 | h2
        · exact hdom a h1 c (List.mem_cons_of_mem x hcl) hca
        · have hax : a = x := by simpa using h2
          subst hax
          exact hx c hcl
      · rw [dedupStep_neg acc x hfind] at ha
        exact hdom a ha c (List.mem_cons_of_mem x hcl) hca
    rcases List.mem_cons.mp hc with rfl | hcl
    · rcases mem_foldl_dedupStep l (dedupStep acc c) b hb with hmem | ⟨hbl, hne⟩
      · by_cases hfind : (acc.find? (fun d => d.branch == c.branch)).isNone = true
        · rw [dedupStep_pos acc c hfind] at hmem
          rcases List.mem_append.mp hmem with h1 | h2
          · exact hdom b h1 c (List.mem_cons_self c l) hbc
          · have hbx : b = c := by simpa using h2
            subst hbx
            exact le_refl (key b)
        · rw [dedupStep_neg acc c hfind] at hmem
          exact hdom b hmem c (List.mem_cons_self c l) hbc
      · exfalso
        by_cases hfind : (acc.find? (fun d => d.branch == c.branch)).isNone = true
        · have hcmem : c ∈ dedupStep acc c := by
            rw [dedupStep_pos acc c hfind]
            exact List.mem_append_right acc (List.mem_singleton_self c)
          exact hne c hcmem hbc
        · obtain ⟨a, hamem, hap⟩ := clash_of_not_isNone acc c hfind
          have hamem2 : a ∈ dedupStep acc c := dedupStep_subset acc c hamem
          exact hne a hamem2 (hap.trans hbc)
    · exact ih (dedupStep acc x) hsort' hdom' b hb c hcl hbc

theorem countP_branch_le_one (l : List Build) (br : String)
    (h : l.Pairwise (fun a b => ¬ a.branch = b.branch)) :
    l.countP (fun b => b.branch == br) ≤ 1 := by
  induction l with
  | nil => simp
  | cons x l ih =>
    have hx : ∀ c ∈ l, ¬ x.branch = c.branch := fun c hc =>
      List.rel_of_pairwise_cons h hc
    rw [List.countP_cons]
    by_cases hbr : x.branch = br
    · have hz : l.countP (fun b => b.branch == br) = 0 := by
        rw [List.countP_eq_zero]
        intro c hc
        simp only [beq_iff_eq]
        intro hcbr
        exact hx c hc (hbr.trans hcbr.symm)
      simp [hz, hbr]
    · have : ((x.branch == br) = false) := by simpa using hbr
      simp [this]
      exact ih h.of_cons

theorem neg32_eq_neg (n : Int) (h1 : -2147483648 < n) (h2 : n < 2147483648) :
    neg32 n = -n := by
  unfold neg32 wrap32
  rw [Int.emod_eq_of_lt (by omega) (by omega)]
  omega

theorem neg32_min : neg32 (-2147483648) = -2147483648 := by decide

theorem neg32_min_le (n : Int) (h1 : -2147483648 ≤ n) (h2 : n < 2147483648) :
    neg32 (-2147483648) ≤ neg32 n := by
  rcases eq_or_lt_of_le h1 with heq | hlt
  · rw [← heq, neg32_min]
  · rw [neg32_min, neg32_eq_neg n hlt h2]
    omega

theorem negKey_le_iff (a b : Build)
    (ha1 : -2147483648 < a.build_num) (ha2 : a.build_num < 2147483648)
    (hb1 : -2147483648 < b.build_num) (hb2 : b.build_num < 2147483648) :
    (negKey a ≤ negKey b ↔ b.build_num ≤ a.build_num) := by
  unfold negKey
  rw [neg32_eq_neg a.build_num ha1 ha2, neg32_eq_neg b.build_num hb1 hb2]
  omega

theorem maxByKeyStep_some (key : Build → Nat) (m x : Build) :
    maxByKeyStep key (some m) x = some (if key m ≤ key x then x else m) := by
  unfold maxByKeyStep
  by_cases h : key m ≤ key x <;> simp [h]

theorem foldl_maxByKeyStep_isSome (key : Build → Nat) (l : List Build) :
    ∀ m : Build, (l.foldl (maxByKeyStep key) (some m)).isSome = true := by
  induction l with
  | nil => intro m; simp
  | cons x l ih =>
    intro m
    rw [List.foldl_cons, maxByKeyStep_some]
    exact ih _

theorem max_by_key_isSome (key : Build → Nat) (l : List Build) (h : l ≠ []) :
    (max_by_key key l).isSome = true := by
  cases l with
  | nil => exact absurd rfl h
  | cons x l =>
    unfold max_by_key
    rw [List.foldl_cons]
    exact foldl_maxByKeyStep_isSome key l x

theorem foldl_maxByKeyStep_bound (key : Build → Nat) (l : List Build) :
    ∀ m0 m : Build, l.foldl (maxByKeyStep key) (some m0) = some m →
      key m0 ≤ key m ∧ ∀ x ∈ l, key x ≤ key m := by
  induction l with
  | nil =>
    intro m0 m h
    have : m0 = m := by simpa using h
    subst this
    exact ⟨le_refl _, fun x hx => absurd hx (List.not_mem_nil x)⟩
  | cons x l ih =>
    intro m0 m h
    rw [List.foldl_cons, maxByKeyStep_some] at h
    obtain ⟨h1, h2⟩ := ih _ m h
    have hm0 : key m0 ≤ key (if key m0 ≤ key x then x else m0) := by
      by_cases hle : key m0 ≤ key x <;> simp [hle]
    have hxle : key x ≤ key (if key m0 ≤ key x then x else m0) := by
      by_cases hle : key m0 ≤ key x <;> simp [hle]
      omega
    refine ⟨le_trans hm0 h1, ?_⟩
    intro y hy
    rcases List.mem_cons.mp hy with rfl | hyl
    · exact le_trans hxle h1
    · exact h2 y hyl

theorem max_by_key_max (key : Build → Nat) (l : List Build) (m : Build)
    (h : max_by_key key l = some m) : ∀ x ∈ l, key x ≤ key m := by
  cases l with
  | nil => cases h
  | cons x l =>
    unfold max_by_key at h
    rw [List.foldl_cons] at h
    have hstep : maxByKeyStep key none x = some x := rfl
    rw [hstep] at h
    obtain ⟨h1, h2⟩ := foldl_maxByKeyStep_bound key l x m h
    intro y hy
    rcases List.mem_cons.mp hy with rfl | hyl
    · exact h1
    · exact h2 y hyl

theorem pad_eq_replicate_append (s : String) (n : Nat) :
    pad s n = String.mk (List.replicate n ' ') ++ s := by
  induction n with
  | zero =>
    show s = String.mk [] ++ s
    cases s
    rfl
  | succ n ih =>
    show " " ++ pad s n = String.mk (List.replicate (n + 1) ' ') ++ s
    rw [ih]
    cases s
    rfl

theorem pad_length (s : String) (n : Nat) : (pad s n).length = n + s.length := by
  rw [pad_eq_replicate_append]
  cases s with
  | mk data =>
    show (String.mk (List.replicate n ' ' ++ data)).length = n + (String.mk data).length
    simp [String.length]

theorem dedupFold_mem_sub (l : List Build) : ∀ b ∈ dedupFold l, b ∈ l := by
  intro b hb
  rcases mem_foldl_dedupStep l [] b hb with h | ⟨h, _⟩
  · cases h
  · exact h

theorem dedupFold_pairwise (l : List Build) :
    (dedupFold l).Pairwise (fun a b => ¬ a.branch = b.branch) :=
  pairwise_foldl_dedupStep l [] List.Pairwise.nil

theorem dedupFold_branch_cover (l : List Build) (br : String)
    (h : ∃ b ∈ l, b.branch = br) : ∃ c ∈ dedupFold l, c.branch = br :=
  branch_cover_foldl_dedupStep l [] br h

theorem dedupFold_min_key (key : Build → Int) (l : List Build)
    (hsort : l.Pairwise (fun a b => key a ≤ key b)) :
    ∀ b ∈ dedupFold l, ∀ c ∈ l, c.branch = b.branch → key b ≤ key c :=
  min_key_foldl_dedupStep key l []
    hsort (fun a ha => absurd ha (List.not_mem_nil a))

theorem mem_localFilter (isLocal : String → Bool) (l : List Build) (b : Build) :
    b ∈ localFilter isLocal l ↔ b ∈ l ∧ isLocal b.branch = true := by
  unfold localFilter
  exact List.mem_filter

theorem findBuildsCore
    (isLocal : String → Bool) (builds out : List Build)
    (hlo : ∀ b ∈ builds, -2147483648 < b.build_num)
    (hhi : ∀ b ∈ builds, b.build_num < 2147483648)
    (hrel : FindBuildsRel isLocal builds out) :
    (∀ b ∈ out, isLocal b.branch = true) ∧
    (∀ br : String, (∃ b ∈ builds, b.branch = br) → isLocal br = true →
      out.countP (fun b => b.branch == br) = 1 ∧
      ∃ b ∈ out, b.branch = br ∧ b ∈ builds ∧
        ∀ c ∈ builds, c.branch = br → c.build_num ≤ b.build_num) := by
  obtain ⟨s1, ⟨hperm1, hsort1⟩, ⟨hperm2, hsort2⟩⟩ := hrel
  have hdedup_builds : ∀ b ∈ dedupFold s1, b ∈ builds := fun b hb =>
    hperm1.mem_iff.mp (dedupFold_mem_sub s1 b hb)
  constructor
  · intro b hb
    exact ((mem_localFilter isLocal (dedupFold s1) b).mp (hperm2.mem_iff.mp hb)).2
  · intro br hbr hloc
    obtain ⟨c, hcd, hcbr⟩ := dedupFold_branch_cover s1 br (by
      obtain ⟨b, hb, hbbr⟩ := hbr
      exact ⟨b, hperm1.mem_iff.mpr hb, hbbr⟩)
    have hcf : c ∈ localFilter isLocal (dedupFold s1) :=
      (mem_localFilter isLocal (dedupFold s1) c).mpr ⟨hcd, by rw [hcbr]; exact hloc⟩
    have hcout : c ∈ out := hperm2.mem_iff.mpr hcf
    have hcbuilds : c ∈ builds := hdedup_builds c hcd
    constructor
    · have hcount_eq : out.countP (fun b => b.branch == br) =
          (localFilter isLocal (dedupFold s1)).countP (fun b => b.branch == br) :=
        hperm2.countP_eq _
      have hle : (localFilter isLocal (dedupFold s1)).countP (fun b => b.branch == br) ≤ 1 := by
        apply countP_branch_le_one
        unfold localFilter
        exact (dedupFold_pairwise s1).filter _
      have hpos : 0 < (localFilter isLocal (dedupFold s1)).countP (fun b => b.branch == br) :=
        List.countP_pos_iff.mpr ⟨c, hcf, by simpa using hcbr⟩
      omega
    · refine ⟨c, hcout, hcbr, hcbuilds, ?_⟩
      intro d hd hdbr
      have hds1 : d ∈ s1 := hperm1.mem_iff.mpr hd
      have hkey : negKey c ≤ negKey d :=
        dedupFold_min_key negKey s1 hsort1 c hcd d hds1 (hdbr.trans hcbr.symm)
      exact (negKey_le_iff c d (hlo c hcbuilds) (hhi c hcbuilds)
        (hlo d hd) (hhi d hd)).mp hkey

/-- Build `a` occurs strictly before build `b` in the list `l`. -/
def OrderedPairIn (a b : Build) (l : List Build) : Prop :=
  ∃ i : Fin l.length, ∃ j : Fin l.length,
    i.val < j.val ∧ l.get i = a ∧ l.get j = b

instance (a b : Build) (l : List Build) : Decidable (OrderedPairIn a b l) := by
  unfold OrderedPairIn
  infer_instance

/-!
Claim theorems.
-/

/-- C1 (counterexample): as stated, the maximum-`build_num`-per-branch
property fails on the code: with input builds `("a", -2^31)` and
`("a", 0)` and every branch local, `find_builds` can return exactly
`[("a", -2^31)]` — the i32 negation of `-2^31` wraps to `-2^31`, the
smallest key, so that build is kept instead of the branch maximum `0`. -/
theorem find_builds_max_overflow_cex :
    FindBuildsRel (fun _ => true)
      [⟨"a", -2147483648, none⟩, ⟨"a", 0, none⟩] [⟨"a", -2147483648, none⟩] ∧
    ¬ (∃ b ∈ [(⟨"a", -2147483648, none⟩ : Build)], b.branch = "a" ∧
        ∀ c ∈ [(⟨"a", -2147483648, none⟩ : Build), ⟨"a", 0, none⟩],
          c.branch = "a" → c.build_num ≤ b.build_num) := by
  refine ⟨⟨[⟨"a", -2147483648, none⟩, ⟨"a", 0, none⟩], ⟨?_, ?_⟩, ?_, ?_⟩, ?_⟩ <;> decide

/-- C1 (amended): for every input list whose `build_num`s lie strictly
inside the i32 range excluding `-2^31` (so the negated sort key does not
overflow), every result of `find_builds` contains exactly one build for
each branch that appears in the input and is local, that build is an
input build on that branch with the maximum `build_num`, and no build
with a non-local branch appears in the output. -/
theorem find_builds_dedup_local_correct
    (isLocal : String → Bool) (builds out : List Build)
    (hlo : ∀ b ∈ builds, -2147483648 < b.build_num)
    (hhi : ∀ b ∈ builds, b.build_num < 2147483648)
    (hrel : FindBuildsRel isLocal builds out) :
    (∀ b ∈ out, isLocal b.branch = true) ∧
    (∀ br : String, (∃ b ∈ builds, b.branch = br) → isLocal br = true →
      out.countP (fun b => b.branch == br) = 1 ∧
      ∃ b ∈ out, b.branch = br ∧ b ∈ builds ∧
        ∀ c ∈ builds, c.branch = br → c.build_num ≤ b.build_num) :=
  findBuildsCore isLocal builds out hlo hhi hrel

/-- C1 (witness): on the spec §8 scenario — builds `("main", 9, failed)`,
`("main", 5, success)`, `("dev", 3, running)` with local branches `main`
and `dev` — the selected list `[("dev", 3), ("main", 9)]` holds exactly
one build on branch `main`. -/
theorem find_builds_dedup_local_correct_witness :
    ([⟨"dev", 3, some Outcome.Running⟩, ⟨"main", 9, some Outcome.Failed⟩] : List Build).countP
      (fun b => b.branch == "main") = 1 := by
  have h := find_builds_dedup_local_correct (fun br => br == "main" || br == "dev")
    [⟨"main", 9, some Outcome.Failed⟩, ⟨"main", 5, some Outcome.Success⟩,
      ⟨"dev", 3, some Outcome.Running⟩]
    [⟨"dev", 3, some Outcome.Running⟩, ⟨"main", 9, some Outcome.Failed⟩]
    (by decide) (by decide)
    ⟨[⟨"main", 9, some Outcome.Failed⟩, ⟨"main", 5, some Outcome.Success⟩,
      ⟨"dev", 3, some Outcome.Running⟩], ⟨by decide, by decide⟩, by decide, by decide⟩
  exact (h.2 "main" ⟨⟨"main", 9, some Outcome.Failed⟩, by decide, rfl⟩ (by decide)).1

/-- C2 (counterexample): the first pass is an unstable sort, so the
relative input order of two builds with equal `build_num` and distinct
branches need not survive the descending-sort dedup pass: on input
`[("a", 5), ("b", 5)]` the sort may yield `[("b", 5), ("a", 5)]` (a valid
`sort_unstable_by_key` result), the dedup fold keeps both, and `("a", 5)`
no longer precedes `("b", 5)`. -/
theorem sort_dedup_stability_cex :
    IsUnstableSortByKey negKey
      [⟨"a", 5, none⟩, ⟨"b", 5, none⟩] [⟨"b", 5, none⟩, ⟨"a", 5, none⟩] ∧
    (⟨"a", 5, none⟩ : Build).build_num = (⟨"b", 5, none⟩ : Build).build_num ∧
    ¬ (⟨"a", 5, none⟩ : Build).branch = (⟨"b", 5, none⟩ : Build).branch ∧
    OrderedPairIn ⟨"a", 5, none⟩ ⟨"b", 5, none⟩ [⟨"a", 5, none⟩, ⟨"b", 5, none⟩] ∧
    dedupFold [⟨"b", 5, none⟩, ⟨"a", 5, none⟩] = [⟨"b", 5, none⟩, ⟨"a", 5, none⟩] ∧
    ¬ OrderedPairIn ⟨"a", 5, none⟩ ⟨"b", 5, none⟩
        (dedupFold [⟨"b", 5, none⟩, ⟨"a", 5, none⟩]) := by
  refine ⟨⟨?_, ?_⟩, ?_, ?_, ?_, ?_, ?_⟩ <;> decide

/-- C2 (amended): the first pass of `find_builds` sorts the input
descending by `build_num` with an unstable sort: every valid result of
the sort call is a permutation of the input that is sorted descending by
`build_num` (given i32-range keys excluding `-2^31`); the relative order
of equal-`build_num` builds is not guaranteed. -/
theorem sort_pass_descending (builds s1 : List Build)
    (hlo : ∀ b ∈ builds, -2147483648 < b.build_num)
    (hhi : ∀ b ∈ builds, b.build_num < 2147483648)
    (h : IsUnstableSortByKey negKey builds s1) :
    List.Perm s1 builds ∧ s1.Pairwise (fun a b => b.build_num ≤ a.build_num) := by
  obtain ⟨hperm, hsort⟩ := h
  refine ⟨hperm, ?_⟩
  refine List.Pairwise.imp_of_mem ?_ hsort
  intro a b ha hb hk
  have ha2 : a ∈ builds := hperm.mem_iff.mp ha
  have hb2 : b ∈ builds := hperm.mem_iff.mp hb
  exact (negKey_le_iff a b (hlo a ha2) (hhi a ha2) (hlo b hb2) (hhi b hb2)).mp hk

/-- C2 (witness): `[("b", 7), ("a", 3)]` is a valid descending sort of
`[("a", 3), ("b", 7)]`: a permutation, sorted descending by `build_num`. -/
theorem sort_pass_descending_witness :
    List.Perm [(⟨"b", 7, none⟩ : Build), ⟨"a", 3, none⟩]
      [⟨"a", 3, none⟩, ⟨"b", 7, none⟩] ∧
    ([(⟨"b", 7, none⟩ : Build), ⟨"a", 3, none⟩]).Pairwise
      (fun a b => b.build_num ≤ a.build_num) :=
  sort_pass_descending [⟨"a", 3, none⟩, ⟨"b", 7, none⟩]
    [⟨"b", 7, none⟩, ⟨"a", 3, none⟩] (by decide) (by decide) ⟨by decide, by decide⟩

/-- C3 (code bug): with the current working directory not a
version-control working tree, the code's repository-acquisition step
(`Repository::init(".")`, src/main.rs:47) succeeds — creating a fresh
repository and letting `main` proceed to selection — whereas the claimed
behavior (open, fail with `RepositoryError`) aborts. -/
theorem repository_init_no_abort :
    repositoryInit ⟨false⟩ = Except.ok ⟨true⟩ ∧
    repositoryOpenSpec ⟨false⟩ = Except.error "RepositoryError" :=
  ⟨rfl, rfl⟩

/-- C4: every result of `find_builds` is sorted ascending by `build_num`:
each adjacent pair of output builds is ordered by `build_num` with no
inversions (this needs no range hypothesis — the second sort key is
`build_num` itself, with no arithmetic). -/
theorem find_builds_output_ascending (isLocal : String → Bool) (builds out : List Build)
    (hrel : FindBuildsRel isLocal builds out) :
    out.Chain' (fun a b => a.build_num ≤ b.build_num) := by
  obtain ⟨s1, -, -, hsort⟩ := hrel
  exact List.Pairwise.chain' hsort

/-- C4 (witness): the selection `[("dev", 3), ("main", 9)]` produced from
the spec §8 scenario is ascending in `build_num`. -/
theorem find_builds_output_ascending_witness :
    ([(⟨"dev", 3, some Outcome.Running⟩ : Build), ⟨"main", 9, some Outcome.Failed⟩]).Chain'
      (fun a b => a.build_num ≤ b.build_num) :=
  find_builds_output_ascending (fun br => br == "main" || br == "dev")
    [⟨"main", 9, some Outcome.Failed⟩, ⟨"main", 5, some Outcome.Success⟩,
      ⟨"dev", 3, some Outcome.Running⟩]
    [⟨"dev", 3, some Outcome.Running⟩, ⟨"main", 9, some Outcome.Failed⟩]
    ⟨[⟨"main", 9, some Outcome.Failed⟩, ⟨"main", 5, some Outcome.Success⟩,
      ⟨"dev", 3, some Outcome.Running⟩], ⟨by decide, by decide⟩, by decide, by decide⟩

/-- C5: the trailing build-number field of a rendered line (the last
component of `renderLine`) is the decimal `build_num` exactly when the
outcome is `failed`; for every other outcome and for a missing outcome it
is empty, so no build number is appended. -/
theorem failed_outcome_number (build : Build) :
    (build.outcome = some Outcome.Failed ∧
      buildNumField build = toString build.build_num) ∨
    (¬ build.outcome = some Outcome.Failed ∧ buildNumField build = "") := by
  cases hoc : build.outcome with
  | none => exact Or.inr ⟨by simp [hoc], by simp [buildNumField, hoc]⟩
  | some o =>
    cases o
    case Failed => exact Or.inl ⟨rfl, by simp [buildNumField, hoc, Outcome.failed]⟩
    all_goals exact Or.inr ⟨by simp [hoc], by simp [buildNumField, hoc, Outcome.failed]⟩

/-- C5 (witness): a build with outcome `failed` and number 9 renders the
trailing field `"9"`. -/
theorem failed_outcome_number_witness :
    ((⟨"m", 9, some Outcome.Failed⟩ : Build).outcome = some Outcome.Failed ∧
      buildNumField ⟨"m", 9, some Outcome.Failed⟩ = toString (9 : Int)) ∨
    (¬ (⟨"m", 9, some Outcome.Failed⟩ : Build).outcome = some Outcome.Failed ∧
      buildNumField ⟨"m", 9, some Outcome.Failed⟩ = "") :=
  failed_outcome_number ⟨"m", 9, some Outcome.Failed⟩

/-- C6: `print_builds` on the empty selection hits the
`expect("failed to find longest branch")` panic (embedded as `none`),
and on every non-empty selection that panic cannot fire. -/
theorem print_builds_empty_abort (current : String) (builds : List Build) :
    print_builds current [] = none ∧
    (¬ builds = [] → (print_builds current builds).isSome = true) := by
  refine ⟨rfl, ?_⟩
  intro h
  unfold print_builds
  cases hm : max_by_key (fun b => b.branch.length) builds with
  | none =>
    have hs := max_by_key_isSome (fun b => b.branch.length) builds h
    rw [hm] at hs
    cases hs
  | some m => simp

/-- C6 (witness): a singleton selection renders without the empty-list
abort. -/
theorem print_builds_empty_abort_witness :
    (print_builds "x" [⟨"a", 1, none⟩]).isSome = true :=
  (print_builds_empty_abort "x" [⟨"a", 1, none⟩]).2 (by decide)

/-- C7: `TryBuild::into_build` returns `none` exactly when the wire
branch is null, and every `Build` produced by the decode step of `main`
comes from a wire record whose branch was non-null — no null-branch
record reaches the selector. -/
theorem into_build_null_drop (t : TryBuild) (wire : List TryBuild) :
    (t.into_build = none ↔ t.branch = none) ∧
    (∀ b ∈ decodeBuilds wire, ∃ t2 ∈ wire,
      t2.into_build = some b ∧ t2.branch = some b.branch) := by
  constructor
  · cases ht : t.branch with
    | none => simp [TryBuild.into_build, ht]
    | some br => simp [TryBuild.into_build, ht]
  · intro b hb
    obtain ⟨t2, ht2, hsome⟩ := List.mem_filterMap.mp hb
    refine ⟨t2, ht2, hsome, ?_⟩
    cases hbr : t2.branch with
    | none => simp [TryBuild.into_build, hbr] at hsome
    | some br =>
      simp [TryBuild.into_build, hbr] at hsome
      subst hsome
      rfl

/-- C7 (witness): the wire record with a null branch converts to `none`. -/
theorem into_build_null_drop_witness :
    (TryBuild.mk none 1 none).into_build = none :=
  ((into_build_null_drop ⟨none, 1, none⟩ []).1).mpr rfl

/-- C8: the descending sort key is the wrapped 32-bit negation of
`build_num`: the negation is exact for `build_num` strictly between
`-2^31` and `2^31`, wraps to `-2^31` at `-2^31` (making that build the
minimal key, i.e. treated as the most recent), and under the precondition
that no input `build_num` equals `-2^31` the maximum-`build_num`-per-branch
property of `find_builds` holds. -/
theorem negated_sort_key_overflow :
    (∀ n : Int, -2147483648 < n → n < 2147483648 → neg32 n = -n) ∧
    neg32 (-2147483648) = -2147483648 ∧
    (∀ n : Int, -2147483648 ≤ n → n < 2147483648 → neg32 (-2147483648) ≤ neg32 n) ∧
    (∀ (isLocal : String → Bool) (builds out : List Build),
      (∀ b ∈ builds, -2147483648 < b.build_num) →
      (∀ b ∈ builds, b.build_num < 2147483648) →
      FindBuildsRel isLocal builds out →
      ∀ br : String, (∃ b ∈ builds, b.branch = br) → isLocal br = true →
        ∃ b ∈ out, b.branch = br ∧
          ∀ c ∈ builds, c.branch = br → c.build_num ≤ b.build_num) := by
  refine ⟨neg32_eq_neg, neg32_min, neg32_min_le, ?_⟩
  intro isLocal builds out hlo hhi hrel br hbr hloc
  obtain ⟨-, h2⟩ := findBuildsCore isLocal builds out hlo hhi hrel
  obtain ⟨-, b, hbout, hbbr, -, hmax⟩ := h2 br hbr hloc
  exact ⟨b, hbout, hbbr, hmax⟩

/-- C8 (witness): the key negation is exact away from `-2^31`. -/
theorem negated_sort_key_overflow_witness : neg32 5 = -5 :=
  negated_sort_key_overflow.1 5 (by decide) (by decide)

/-- C9: when `max_by_key` over branch lengths returns a longest build
(as it does for the non-empty list printed by `print_builds`), every
build's branch is no longer than the column width, so the `usize`
subtraction `length - build.branch.len()` never underflows, and `pad`
right-aligns every branch label to exactly the shared column width. -/
theorem pad_no_underflow_aligned (builds : List Build) (m : Build)
    (h : max_by_key (fun b => b.branch.length) builds = some m)
    (b : Build) (hb : b ∈ builds) :
    b.branch.length ≤ m.branch.length ∧
    (pad b.branch (m.branch.length - b.branch.length)).length = m.branch.length ∧
    pad b.branch (m.branch.length - b.branch.length) =
      String.mk (List.replicate (m.branch.length - b.branch.length) ' ') ++ b.branch := by
  have hle : b.branch.length ≤ m.branch.length :=
    max_by_key_max (fun b => b.branch.length) builds m h b hb
  refine ⟨hle, ?_, pad_eq_replicate_append _ _⟩
  rw [pad_length]
  omega

/-- C9 (witness): with builds on branches `dev` and `main`, the column
width is 4 and `dev` is padded to exactly that width. -/
theorem pad_no_underflow_aligned_witness :
    ("dev".length ≤ "main".length) ∧
    (pad "dev" ("main".length - "dev".length)).length = "main".length ∧
    pad "dev" ("main".length - "dev".length) =
      String.mk (List.replicate ("main".length - "dev".length) ' ') ++ "dev" :=
  pad_no_underflow_aligned [⟨"dev", 3, none⟩, ⟨"main", 9, none⟩]
    ⟨"main", 9, none⟩ (by decide) ⟨"dev", 3, none⟩ (by decide)

/-- C10: conversion discards only null branches: a wire record with the
empty-string branch is retained by `into_build` and the decode step, can
pass through `find_builds` (here with a local predicate accepting it),
and renders to a line. -/
theorem empty_branch_retained :
    TryBuild.into_build ⟨some "", 7, none⟩ = some ⟨"", 7, none⟩ ∧
    decodeBuilds [⟨some "", 7, none⟩] = [⟨"", 7, none⟩] ∧
    FindBuildsRel (fun br => br == "") [⟨"", 7, none⟩] [⟨"", 7, none⟩] ∧
    print_builds "main" [⟨"", 7, none⟩] = some [" no outcome (yet) "] := by
  refine ⟨rfl, rfl, ⟨[⟨"", 7, none⟩], ⟨?_, ?_⟩, ?_, ?_⟩, by decide⟩ <;> decide
